import Mathlib

/-!
Verification of the Payload jobs-queue material: the Workflow Engine
(Job Store / Task Registry / Task Runner / Workflow Executor) described in
the workflows documentation, and the `destroy` teardown function of the
postgres database adapter (`packages/db-postgres/src/destroy.ts`).

The engine itself ships in this repository only as documentation, so its
components are modelled from the spec; the `destroy` function is embedded
from its TypeScript source.
-/

set_option autoImplicit false

namespace PayloadJobs

/-- Opaque structured payload data (workflow input, task input/output).
Typed schemas are modelled as predicates over this opaque data. -/
abbrev Val := String

abbrev Slug := String

abbrev InvocationId := String

/-- Identity of one task invocation inside a job: `(taskSlug, invocationId)`. -/
abbrev Key := Slug × InvocationId

/-- Modelled from the spec: Task Execution Record status
(`not-started`, `running`, `succeeded`, `failed`). -/
inductive TaskStatus where
  | notStarted
  | running
  | succeeded
  | failed
deriving DecidableEq, Repr

/-- Modelled from the spec: job state (`pending`, `running`, `succeeded`, `failed`). -/
inductive JobState where
  | pending
  | running
  | succeeded
  | failed
deriving DecidableEq, Repr

/-- Modelled from the spec: Task Execution Record — per-invocation input,
output (present only if the invocation succeeded), error detail, status and
attempt counter. -/
structure TaskRecord where
  input : Val
  output : Option Val
  errorInfo : Option String
  status : TaskStatus
  attemptCount : Nat
deriving DecidableEq, Repr

/-- Modelled from the spec: a Job — one durable record per workflow
invocation, with per-invocation Task Execution Records keyed by
`(taskSlug, invocationId)` and an overall state. -/
structure Job where
  id : Nat
  workflowSlug : Slug
  input : Val
  taskStatus : List (Key × TaskRecord)
  state : JobState
  totalFailureCount : Nat
deriving DecidableEq, Repr

/-- Look up the Task Execution Record stored for a key. -/
def lookupRec : List (Key × TaskRecord) → Key → Option TaskRecord
  | [], _ => none
  | (k', r) :: rest, k => if k' = k then some r else lookupRec rest k

/-- Upsert the Task Execution Record stored for a key. -/
def upsertRec : List (Key × TaskRecord) → Key → TaskRecord → List (Key × TaskRecord)
  | [], k, r => [(k, r)]
  | (k', r') :: rest, k, r =>
      if k' = k then (k, r) :: rest else (k', r') :: upsertRec rest k r

/-- Status recorded for a key in a job (`not-started` when no record exists). -/
def statusOf (j : Job) (k : Key) : TaskStatus :=
  match lookupRec j.taskStatus k with
  | some r => r.status
  | none => .notStarted

/-- Attempt count recorded for a key in a job (0 when no record exists). -/
def attemptsOf (j : Job) (k : Key) : Nat :=
  match lookupRec j.taskStatus k with
  | some r => r.attemptCount
  | none => 0

/-- Stored output recorded for a key in a job. -/
def outputOf (j : Job) (k : Key) : Option Val :=
  match lookupRec j.taskStatus k with
  | some r => r.output
  | none => none

/-- Stored error detail recorded for a key in a job. -/
def errorOf (j : Job) (k : Key) : Option String :=
  match lookupRec j.taskStatus k with
  | some r => r.errorInfo
  | none => none

/-- A task handler: consumes the captured input, either returns an output or
throws. A thrown exception is modelled as `Except.error`. -/
abbrev Handler := Val → Except String Val

/-- Modelled from the spec: resolved retry policy (§4.4 precedence rule and
§9 design note). A workflow-level `retries = 0` overrides every task retry
setting; otherwise the invocation's `retryOverride` wins, else the task
definition's `retries`, else the workflow's `retries`; `none` means no
engine-imposed bound. -/
def effectiveRetryLimit (workflowRetries taskRetries retryOverride : Option Nat) :
    Option Nat :=
  if workflowRetries = some 0 then some 0
  else retryOverride.orElse fun _ => taskRetries.orElse fun _ => workflowRetries

/-- Whether a failure with the given post-increment attempt count is still
retryable under a resolved retry limit (`none` = no engine-imposed bound). -/
def retryPermitted (limit : Option Nat) (attemptCount : Nat) : Bool :=
  match limit with
  | none => true
  | some n => attemptCount ≤ n

/-- Outcome of one Task Runner `run` call: a successful output, or a failure
flagged retryable or terminal. There is no exception constructor: the Runner
boundary converts handler exceptions into failure outcomes. -/
inductive TaskOutcome where
  | ok (output : Val)
  | failed (retryable : Bool)
deriving DecidableEq, Repr

/-- Observable execution events: the Runner invoking a task's handler
function, and a record transitioning to `succeeded` or `failed`. -/
inductive Event where
  | handlerInvoked (k : Key) (input : Val)
  | taskSucceeded (k : Key) (output : Val)
  | taskFailed (k : Key) (retryable : Bool)
deriving DecidableEq, Repr

/-- The key an event concerns. -/
def Event.key : Event → Key
  | .handlerInvoked k _ => k
  | .taskSucceeded k _ => k
  | .taskFailed k _ => k

/-- Whether an event is a handler invocation. -/
def Event.isInvoke : Event → Bool
  | .handlerInvoked _ _ => true
  | _ => false

/-- The Task Execution Record persisted after a successful attempt. -/
def succRecord (input out : Val) (attempts : Nat) : TaskRecord :=
  { input := input, output := some out, errorInfo := none,
    status := .succeeded, attemptCount := attempts }

/-- The Task Execution Record persisted after a failed attempt. -/
def failRecord (input : Val) (e : String) (attempts : Nat) : TaskRecord :=
  { input := input, output := none, errorInfo := some e,
    status := .failed, attemptCount := attempts }

/-- Modelled from the spec: Task Runner steps 3–5 of §4.3 — mark the record
running, increment `attemptCount`, invoke the handler; on success persist the
output and set `succeeded`; on failure persist the error, set `failed`, and
flag the failure retryable exactly when the attempt count has not exceeded
the resolved retry limit. `prev` is the record found for the key (a fresh
record with `attemptCount = 0` when none existed). -/
def attemptTask (limit : Option Nat) (handler : Handler) (k : Key) (input : Val)
    (job : Job) (prev : TaskRecord) : TaskOutcome × Job × List Event :=
  let attempts := prev.attemptCount + 1
  match handler input with
  | .ok out =>
      (.ok out,
        { job with taskStatus := upsertRec job.taskStatus k (succRecord input out attempts) },
        [.handlerInvoked k input, .taskSucceeded k out])
  | .error e =>
      let retryable := retryPermitted limit attempts
      (.failed retryable,
        { job with taskStatus := upsertRec job.taskStatus k (failRecord input e attempts),
                   totalFailureCount := job.totalFailureCount + 1 },
        [.handlerInvoked k input, .taskFailed k retryable])

/-- A fresh, never-attempted Task Execution Record for a key. -/
def freshRecord (input : Val) : TaskRecord :=
  { input := input, output := none, errorInfo := none,
    status := .notStarted, attemptCount := 0 }

/-- Modelled from the spec: Task Runner `run` (§4.3) for one invocation, with
the retry limit already resolved. If the stored record is `succeeded` the
stored output is returned at once and the handler is not invoked; otherwise
the task is attempted via `attemptTask`. -/
def runTask (limit : Option Nat) (handler : Handler) (k : Key) (input : Val)
    (job : Job) : TaskOutcome × Job × List Event :=
  match lookupRec job.taskStatus k with
  | some r =>
      if r.status = .succeeded then (.ok (r.output.getD ""), job, [])
      else attemptTask limit handler k input job r
  | none => attemptTask limit handler k input job (freshRecord input)

/-- The job after the Task Runner persists a successful fresh attempt of key
`k`: the key's record becomes `succeeded` with the produced output and an
incremented attempt count. -/
def jobAfterOk (job : Job) (k : Key) (input out : Val) : Job :=
  { job with taskStatus :=
      upsertRec job.taskStatus k (succRecord input out (attemptsOf job k + 1)) }

/-- The job after the Task Runner persists a failed attempt of key `k`: the
key's record becomes `failed` with the error detail and an incremented
attempt count, and the job's total failure counter is incremented. -/
def jobAfterFail (job : Job) (k : Key) (input : Val) (e : String) : Job :=
  { job with
      taskStatus :=
        upsertRec job.taskStatus k (failRecord input e (attemptsOf job k + 1)),
      totalFailureCount := job.totalFailureCount + 1 }

/-- Modelled from the spec: validation wrapper for predefined tasks — input
is checked against the task's input schema before the handler runs, and the
produced output against the output schema; violations become handler-level
failures. Inline tasks bypass this wrapper (opaque payload). -/
def validated (inputSchema outputSchema : Val → Bool) (handler : Handler) : Handler :=
  fun v =>
    if inputSchema v then
      match handler v with
      | .ok out => if outputSchema out then .ok out else .error "OutputSchemaViolation"
      | .error e => .error e
    else .error "InputSchemaViolation"

/-- Modelled from the spec: a Task Definition — slug (unique across task and
workflow slugs), handler, input/output schema, nullable `retries`. -/
structure TaskDef where
  slug : Slug
  handler : Handler
  inputSchema : Val → Bool
  outputSchema : Val → Bool
  retries : Option Nat

/-- A workflow handler, shallowly embedded as a decision tree: it issues an
ordered sequence of task invocations, each keyed by a stable invocation ID,
where each input may be computed from the current job (prior outputs are
readable through `job.taskStatus`) and each continuation may depend on the
returned output. `runT` invokes a predefined task by slug; `inlineT` supplies
the handler at the call site. -/
inductive WProg where
  | done
  | runT (slug : Slug) (inv : InvocationId) (mkInput : Job → Val)
      (retryOverride : Option Nat) (next : Val → WProg)
  | inlineT (inv : InvocationId) (handler : Handler) (mkInput : Job → Val)
      (retryOverride : Option Nat) (next : Val → WProg)

/-- Modelled from the spec: a Workflow Definition — slug, handler (invoked
with the job's stored input), nullable `retries`, queue name. -/
structure WorkflowDef where
  slug : Slug
  handler : Val → WProg
  retries : Option Nat
  queue : String

/-- Registration errors (`DuplicateSlug`) and lookup errors (`UnknownTask`). -/
inductive RegError where
  | duplicateSlug
  | unknownTask
deriving DecidableEq, Repr

/-- Modelled from the spec: the Task Registry — task and workflow definitions
registered at startup, read-only at execution time. -/
structure Registry where
  tasks : List TaskDef
  workflows : List WorkflowDef

/-- Every slug already registered, across both tasks and workflows. -/
def Registry.allSlugs (r : Registry) : List Slug :=
  r.tasks.map (·.slug) ++ r.workflows.map (·.slug)

/-- Modelled from the spec: `register` for a task definition — fails with
`DuplicateSlug` if the slug collides with any existing task or workflow slug. -/
def Registry.registerTask (r : Registry) (d : TaskDef) : Except RegError Registry :=
  if d.slug ∈ r.allSlugs then .error .duplicateSlug
  else .ok { r with tasks := r.tasks ++ [d] }

/-- Modelled from the spec: `register` for a workflow definition — fails with
`DuplicateSlug` if the slug collides with any existing task or workflow slug. -/
def Registry.registerWorkflow (r : Registry) (d : WorkflowDef) :
    Except RegError Registry :=
  if d.slug ∈ r.allSlugs then .error .duplicateSlug
  else .ok { r with workflows := r.workflows ++ [d] }

/-- First task definition with the given slug. -/
def findTask : List TaskDef → Slug → Option TaskDef
  | [], _ => none
  | d :: rest, s => if d.slug = s then some d else findTask rest s

/-- Modelled from the spec: `lookup(slug)` — returns the task definition or
fails with `UnknownTask`. -/
def Registry.lookupTask (r : Registry) (s : Slug) : Except RegError TaskDef :=
  match findTask r.tasks s with
  | some d => .ok d
  | none => .error .unknownTask

/-- Signal returned by the Workflow Executor to its caller: overall success,
or a failure flagged retryable or terminal (matching the task outcome that
aborted the handler). -/
inductive Signal where
  | success
  | failure (retryable : Bool)
deriving DecidableEq, Repr

/-- Modelled from the spec: Workflow Executor steps 3–6 of §4.4 — interpret
the handler's ordered sequence of task invocations against the job. Each
predefined invocation resolves its task in the registry, resolves the retry
limit by the §4.4 precedence, and runs through the Task Runner with the
schema-validating wrapper; each inline invocation runs its call-site handler
unvalidated under the key `("inline", invocationId)`. A task failure aborts
the handler at that point and sets the job `failed`; an unknown slug also
aborts terminally. -/
def execProg (reg : Registry) (wfRetries : Option Nat) :
    WProg → Job → Signal × Job × List Event
  | .done, job => (.success, job, [])
  | .runT slug inv mkInput retryOverride next, job =>
      match reg.lookupTask slug with
      | .error _ => (.failure false, { job with state := .failed }, [])
      | .ok td =>
          let limit := effectiveRetryLimit wfRetries td.retries retryOverride
          let h := validated td.inputSchema td.outputSchema td.handler
          match runTask limit h (slug, inv) (mkInput job) job with
          | (.ok out, job', tr) =>
              let (sig, job'', tr') := execProg reg wfRetries (next out) job'
              (sig, job'', tr ++ tr')
          | (.failed r, job', tr) =>
              (.failure r, { job' with state := .failed }, tr)
  | .inlineT inv h mkInput retryOverride next, job =>
      let limit := effectiveRetryLimit wfRetries none retryOverride
      match runTask limit h ("inline", inv) (mkInput job) job with
      | (.ok out, job', tr) =>
          let (sig, job'', tr') := execProg reg wfRetries (next out) job'
          (sig, job'', tr ++ tr')
      | (.failed r, job', tr) =>
          (.failure r, { job' with state := .failed }, tr)

/-- Modelled from the spec: Workflow Executor entry (§4.4 algorithm) — load
the job; if already `succeeded`, return immediately; otherwise set the job
`running`, re-execute the workflow handler in full from the job's stored
input, and on completion set `succeeded` (failures were already recorded by
`execProg`). -/
def runWorkflow (reg : Registry) (wf : WorkflowDef) (job : Job) :
    Signal × Job × List Event :=
  if job.state = .succeeded then (.success, job, [])
  else
    let job1 := { job with state := JobState.running }
    match execProg reg wf.retries (wf.handler job.input) job1 with
    | (.success, j, tr) => (.success, { j with state := .succeeded }, tr)
    | (.failure r, j, tr) => (.failure r, j, tr)

/-- A sequence of `n` externally-triggered attempts of the same workflow on
the same job, each re-running the workflow handler; returns the final job and
the concatenated event trace. -/
def runAttempts (reg : Registry) (wf : WorkflowDef) (job : Job) :
    Nat → Job × List Event
  | 0 => (job, [])
  | n + 1 =>
      let r := runWorkflow reg wf job
      let rest := runAttempts reg wf r.2.1 n
      (rest.1, r.2.2 ++ rest.2)

/-- The keys of the success-transition events of a trace, in order. -/
def succKeys (tr : List Event) : List Key :=
  tr.filterMap fun e =>
    match e with
    | .taskSucceeded k _ => some k
    | _ => none

/-- `true` when the trace contains no handler invocation for the key. -/
def noInvokeOf (k : Key) (tr : List Event) : Bool :=
  tr.all fun e => !(e.isInvoke && decide (e.key = k))

/-- `true` when the trace contains no event at all for the key. -/
def noEventOf (k : Key) (tr : List Event) : Bool :=
  tr.all fun e => !(decide (e.key = k))

/-- The retry-limit precedence exactly as the spec's §4.3 sentence states it:
the invocation's `retryOverride` if specified, else the task definition's
`retries`, else the workflow's `retries`, else no engine-imposed bound. Kept
for comparison against `effectiveRetryLimit`. -/
def claimedRetryLimit (workflowRetries taskRetries retryOverride : Option Nat) :
    Option Nat :=
  retryOverride.orElse fun _ => taskRetries.orElse fun _ => workflowRetries

/-- A sample handler that always succeeds with a fixed output. -/
def okHandler : Handler := fun _ => .ok "post-7"

/-- A sample handler that always throws. -/
def boomHandler : Handler := fun _ => .error "boom"

/-- A sample predefined task definition that succeeds. -/
def cTask : TaskDef :=
  { slug := "createPost", handler := okHandler,
    inputSchema := fun _ => true, outputSchema := fun _ => true,
    retries := some 2 }

/-- A sample predefined task definition whose handler always throws. -/
def cFailTask : TaskDef :=
  { slug := "updatePost", handler := boomHandler,
    inputSchema := fun _ => true, outputSchema := fun _ => true,
    retries := some 5 }

/-- A sample registry holding the two sample tasks. -/
def cReg : Registry := { tasks := [cTask, cFailTask], workflows := [] }

/-- An empty registry. -/
def cEmptyReg : Registry := { tasks := [], workflows := [] }

/-- The registry that registering `cTask` into the empty registry yields. -/
def cRegOne : Registry := { tasks := [cTask], workflows := [] }

/-- A succeeded Task Execution Record with stored output "post-7". -/
def cRec : TaskRecord :=
  { input := "X", output := some "post-7", errorInfo := none,
    status := .succeeded, attemptCount := 1 }

/-- A succeeded inline Task Execution Record with stored output "ipost". -/
def cRecInline : TaskRecord :=
  { input := "p", output := some "ipost", errorInfo := none,
    status := .succeeded, attemptCount := 1 }

/-- A sample job whose `("createPost", "1")` invocation already succeeded. -/
def cJob : Job :=
  { id := 1, workflowSlug := "createPostAndUpdate", input := "X",
    taskStatus := [(("createPost", "1"), cRec)], state := .failed,
    totalFailureCount := 1 }

/-- `cJob` after the whole workflow succeeded. -/
def cDoneJob : Job := { cJob with state := JobState.succeeded }

/-- A sample job with a succeeded inline invocation and a succeeded
predefined invocation. -/
def cJob2 : Job :=
  { id := 3, workflowSlug := "createPostAndUpdate", input := "X",
    taskStatus := [(("inline", "2"), cRecInline), (("createPost", "1"), cRec)],
    state := .running, totalFailureCount := 0 }

/-- A fresh pending job with no task records. -/
def cFreshJob : Job :=
  { id := 2, workflowSlug := "createPostAndUpdate", input := "X",
    taskStatus := [], state := .pending, totalFailureCount := 0 }

/-- A sample workflow: run `createPost` under invocation ID "1", then
`updatePost` under invocation ID "2". -/
def cWf : WorkflowDef :=
  { slug := "createPostAndUpdate",
    handler := fun i =>
      .runT "createPost" "1" (fun _ => i) none (fun _ =>
        .runT "updatePost" "2" (fun _ => i) none (fun _ => .done)),
    retries := none, queue := "default" }

/-- The sample workflow with workflow-level retries set to 0. -/
def cWfZero : WorkflowDef := { cWf with retries := some 0 }

/-- A workflow definition whose slug collides with the task slug
`createPost`. -/
def cWfDup : WorkflowDef := { cWf with slug := "createPost" }


end PayloadJobs

namespace PayloadDb

/-- The fields of the postgres adapter that `destroy.ts` touches: the
optional connection pool (`this.pool`) and the optional teardown of the
wrapped drizzle adapter (`this.drizzleAdapter.destroy`); the adapter's other
fields play no part in `destroy`. Presence is modelled by `Option`. -/
structure PostgresAdapter where
  pool : Option Unit
  drizzleAdapterDestroy : Option Unit
deriving DecidableEq, Repr

/-- The awaited side effects `destroy` can perform, in trace order. -/
inductive DestroyEffect where
  | poolEnd
  | drizzleDestroy
deriving DecidableEq, Repr

/-- A JavaScript runtime error: calling a method on a null/undefined value. -/
inductive JsError where
  | calledOnNull
deriving DecidableEq, Repr

/-- Calling an optional member: throws `TypeError` when it is null/undefined. -/
def jsCall {α : Type} : Option α → Except JsError α
  | some x => .ok x
  | none => .error .calledOnNull

/-- Embedded from `packages/db-postgres/src/destroy.ts`:
`if (this.pool) { await this.pool.end() }` then
`if (this.drizzleAdapter.destroy) { await this.drizzleAdapter.destroy() }`.
Returns the ordered trace of awaited effects, or the JavaScript error a
member call on a missing value would raise. -/
def destroy (a : PostgresAdapter) : Except JsError (List DestroyEffect) := do
  let tr1 ←
    if a.pool.isSome then do
      let _ ← jsCall a.pool
      pure [DestroyEffect.poolEnd]
    else pure []
  let tr2 ←
    if a.drizzleAdapterDestroy.isSome then do
      let _ ← jsCall a.drizzleAdapterDestroy
      pure [DestroyEffect.drizzleDestroy]
    else pure []
  pure (tr1 ++ tr2)

/-- `true` when `destroy` ran to completion without a JavaScript error. -/
def destroyOk (a : PostgresAdapter) : Bool :=
  match destroy a with
  | .ok _ => true
  | .error _ => false

/-- The effect trace of a completed `destroy` run (empty on error). -/
def destroyTrace (a : PostgresAdapter) : List DestroyEffect :=
  match destroy a with
  | .ok tr => tr
  | .error _ => []

end PayloadDb

namespace PayloadJobs

theorem lookupRec_upsertRec_self (l : List (Key × TaskRecord)) (k : Key)
    (r : TaskRecord) : lookupRec (upsertRec l k r) k = some r := by
  induction l with
  | nil => simp [upsertRec, lookupRec]
  | cons p rest ih =>
      obtain ⟨k', r'⟩ := p
      by_cases h : k' = k
      · simp [upsertRec, h, lookupRec]
      · simp [upsertRec, h, lookupRec, ih]

theorem lookupRec_upsertRec_ne (l : List (Key × TaskRecord)) (k k' : Key)
    (r : TaskRecord) (hne : k ≠ k') :
    lookupRec (upsertRec l k r) k' = lookupRec l k' := by
  induction l with
  | nil => simp [upsertRec, lookupRec, hne]
  | cons p rest ih =>
      obtain ⟨k₀, r₀⟩ := p
      by_cases h : k₀ = k
      · subst h
        simp [upsertRec, lookupRec, hne]
      · simp [upsertRec, h, lookupRec, ih]

theorem runTask_of_succeeded (limit : Option Nat) (h : Handler) (k : Key)
    (input : Val) (job : Job) (r : TaskRecord)
    (hr : lookupRec job.taskStatus k = some r) (hs : r.status = .succeeded) :
    runTask limit h k input job = (.ok (r.output.getD ""), job, []) := by
  simp [runTask, hr, hs]

theorem runTask_of_failure (limit : Option Nat) (h : Handler) (k : Key)
    (input : Val) (job : Job) (e : String)
    (hs : statusOf job k ≠ .succeeded) (hh : h input = .error e) :
    runTask limit h k input job =
      (.failed (retryPermitted limit (attemptsOf job k + 1)),
       jobAfterFail job k input e,
       [.handlerInvoked k input,
        .taskFailed k (retryPermitted limit (attemptsOf job k + 1))]) := by
  unfold runTask
  cases hl : lookupRec job.taskStatus k with
  | some r =>
      have hst : r.status ≠ .succeeded := by
        simpa [statusOf, hl] using hs
      simp [hst, attemptTask, hh, statusOf, hl, attemptsOf, jobAfterFail]
  | none =>
      simp [attemptTask, hh, freshRecord, attemptsOf, hl, jobAfterFail]

theorem runTask_of_ok (limit : Option Nat) (h : Handler) (k : Key)
    (input : Val) (job : Job) (out : Val)
    (hs : statusOf job k ≠ .succeeded) (hh : h input = .ok out) :
    runTask limit h k input job =
      (.ok out, jobAfterOk job k input out,
       [.handlerInvoked k input, .taskSucceeded k out]) := by
  unfold runTask
  cases hl : lookupRec job.taskStatus k with
  | some r =>
      have hst : r.status ≠ .succeeded := by
        simpa [statusOf, hl] using hs
      simp [hst, attemptTask, hh, statusOf, hl, attemptsOf, jobAfterOk]
  | none =>
      simp [attemptTask, hh, freshRecord, attemptsOf, hl, jobAfterOk]

theorem runTask_events_key (limit : Option Nat) (h : Handler) (k : Key)
    (input : Val) (job : Job) :
    ∀ e ∈ (runTask limit h k input job).2.2, e.key = k := by
  unfold runTask
  cases hl : lookupRec job.taskStatus k with
  | some r =>
      by_cases hst : r.status = .succeeded
      · simp [hst]
      · cases hh : h input <;>
          simp [hst, attemptTask, hh, Event.key]
  | none =>
      cases hh : h input <;> simp [attemptTask, hh, Event.key]

theorem runTask_lookup_ne (limit : Option Nat) (h : Handler) (k : Key)
    (input : Val) (job : Job) (k' : Key) (hne : k ≠ k') :
    lookupRec (runTask limit h k input job).2.1.taskStatus k' =
      lookupRec job.taskStatus k' := by
  unfold runTask
  cases hl : lookupRec job.taskStatus k with
  | some r =>
      by_cases hst : r.status = .succeeded
      · simp [hst]
      · cases hh : h input <;>
          simp [hst, attemptTask, hh, lookupRec_upsertRec_ne _ _ _ _ hne]
  | none =>
      cases hh : h input <;>
        simp [attemptTask, hh, lookupRec_upsertRec_ne _ _ _ _ hne]

theorem runTask_state (limit : Option Nat) (h : Handler) (k : Key)
    (input : Val) (job : Job) :
    (runTask limit h k input job).2.1.state = job.state := by
  unfold runTask
  cases hl : lookupRec job.taskStatus k with
  | some r =>
      by_cases hst : r.status = .succeeded
      · simp [hst]
      · cases hh : h input <;> simp [hst, attemptTask, hh]
  | none =>
      cases hh : h input <;> simp [attemptTask, hh]

theorem runTask_handler_congr (limit : Option Nat) (h₁ h₂ : Handler) (k : Key)
    (input : Val) (job : Job) (hh : h₁ input = h₂ input) :
    runTask limit h₁ k input job = runTask limit h₂ k input job := by
  unfold runTask attemptTask
  rw [hh]

theorem statusOf_eq_succeeded (job : Job) (k : Key)
    (hs : statusOf job k = .succeeded) :
    ∃ r, lookupRec job.taskStatus k = some r ∧ r.status = .succeeded ∧
      outputOf job k = r.output := by
  unfold statusOf at hs
  cases hl : lookupRec job.taskStatus k with
  | some r =>
      rw [hl] at hs
      exact ⟨r, rfl, hs, by simp [outputOf, hl]⟩
  | none =>
      rw [hl] at hs
      simp at hs

theorem runTask_short (limit : Option Nat) (h : Handler) (k : Key) (input : Val)
    (job : Job) (hs : statusOf job k = .succeeded) :
    runTask limit h k input job = (.ok ((outputOf job k).getD ""), job, []) := by
  obtain ⟨r, hl, hst, hout⟩ := statusOf_eq_succeeded job k hs
  rw [runTask_of_succeeded limit h k input job r hl hst, hout]

theorem statusOf_of_lookup_eq (j j' : Job) (k : Key)
    (hl : lookupRec j'.taskStatus k = lookupRec j.taskStatus k) :
    statusOf j' k = statusOf j k := by
  unfold statusOf
  rw [hl]

theorem execProg_frozen (reg : Registry) (wfR : Option Nat) (p : WProg)
    (job : Job) (k : Key) (hs : statusOf job k = .succeeded) :
    (∀ e ∈ (execProg reg wfR p job).2.2, e.key ≠ k) ∧
    lookupRec (execProg reg wfR p job).2.1.taskStatus k =
      lookupRec job.taskStatus k := by
  induction p generalizing job with
  | done => simp [execProg]
  | runT slug inv mkInput retO next ih =>
      cases hlk : reg.lookupTask slug with
      | error err => simp [execProg, hlk]
      | ok td =>
          by_cases hkk : (slug, inv) = k
          · subst hkk
            have hrt := runTask_short (effectiveRetryLimit wfR td.retries retO)
              (validated td.inputSchema td.outputSchema td.handler)
              (slug, inv) (mkInput job) job hs
            simp only [execProg, hlk, hrt, List.nil_append]
            exact ih ((outputOf job (slug, inv)).getD "") job hs
          · rcases hrt : runTask (effectiveRetryLimit wfR td.retries retO)
                (validated td.inputSchema td.outputSchema td.handler)
                (slug, inv) (mkInput job) job with ⟨outc, job', tr⟩
            have htr : ∀ e ∈ tr, e.key = (slug, inv) := by
              have := runTask_events_key (effectiveRetryLimit wfR td.retries retO)
                (validated td.inputSchema td.outputSchema td.handler)
                (slug, inv) (mkInput job) job
              rw [hrt] at this
              exact this
            have hlp : lookupRec job'.taskStatus k = lookupRec job.taskStatus k := by
              have := runTask_lookup_ne (effectiveRetryLimit wfR td.retries retO)
                (validated td.inputSchema td.outputSchema td.handler)
                (slug, inv) (mkInput job) job k hkk
              rw [hrt] at this
              exact this
            cases outc with
            | ok out =>
                simp only [execProg, hlk, hrt]
                have hs' : statusOf job' k = .succeeded := by
                  rw [statusOf_of_lookup_eq job job' k hlp]
                  exact hs
                obtain ⟨ihe, ihl⟩ := ih out job' hs'
                constructor
                · intro e he
                  rcases List.mem_append.mp he with h1 | h2
                  · rw [htr e h1]; exact hkk
                  · exact ihe e h2
                · rw [ihl, hlp]
            | failed b =>
                simp only [execProg, hlk, hrt]
                constructor
                · intro e he
                  rw [htr e he]; exact hkk
                · exact hlp
  | inlineT inv h mkInput retO next ih =>
      by_cases hkk : (("inline" : Slug), inv) = k
      · subst hkk
        have hrt := runTask_short (effectiveRetryLimit wfR none retO) h
          ("inline", inv) (mkInput job) job hs
        simp only [execProg, hrt, List.nil_append]
        exact ih ((outputOf job ("inline", inv)).getD "") job hs
      · rcases hrt : runTask (effectiveRetryLimit wfR none retO) h
            ("inline", inv) (mkInput job) job with ⟨outc, job', tr⟩
        have htr : ∀ e ∈ tr, e.key = (("inline" : Slug), inv) := by
          have := runTask_events_key (effectiveRetryLimit wfR none retO) h
            ("inline", inv) (mkInput job) job
          rw [hrt] at this
          exact this
        have hlp : lookupRec job'.taskStatus k = lookupRec job.taskStatus k := by
          have := runTask_lookup_ne (effectiveRetryLimit wfR none retO) h
            ("inline", inv) (mkInput job) job k hkk
          rw [hrt] at this
          exact this
        cases outc with
        | ok out =>
            simp only [execProg, hrt]
            have hs' : statusOf job' k = .succeeded := by
              rw [statusOf_of_lookup_eq job job' k hlp]
              exact hs
            obtain ⟨ihe, ihl⟩ := ih out job' hs'
            constructor
            · intro e he
              rcases List.mem_append.mp he with h1 | h2
              · rw [htr e h1]; exact hkk
              · exact ihe e h2
            · rw [ihl, hlp]
        | failed b =>
            simp only [execProg, hrt]
            constructor
            · intro e he
              rw [htr e he]; exact hkk
            · exact hlp

theorem succKeys_append (t₁ t₂ : List Event) :
    succKeys (t₁ ++ t₂) = succKeys t₁ ++ succKeys t₂ :=
  List.filterMap_append _ _ _

theorem statusOf_jobAfterOk_self (job : Job) (k : Key) (input out : Val) :
    statusOf (jobAfterOk job k input out) k = .succeeded := by
  simp [jobAfterOk, statusOf, lookupRec_upsertRec_self, succRecord]

theorem statusOf_jobAfterOk_ne (job : Job) (k k' : Key) (input out : Val)
    (hne : k ≠ k') :
    statusOf (jobAfterOk job k input out) k' = statusOf job k' := by
  simp [jobAfterOk, statusOf, lookupRec_upsertRec_ne _ _ _ _ hne]

theorem execProg_succKeys (reg : Registry) (wfR : Option Nat) (p : WProg)
    (job : Job) :
    (succKeys (execProg reg wfR p job).2.2).Nodup ∧
    ∀ k ∈ succKeys (execProg reg wfR p job).2.2,
      statusOf job k ≠ .succeeded ∧
      statusOf (execProg reg wfR p job).2.1 k = .succeeded := by
  induction p generalizing job with
  | done => simp [execProg, succKeys]
  | runT slug inv mkInput retO next ih =>
      cases hlk : reg.lookupTask slug with
      | error err => simp [execProg, hlk, succKeys]
      | ok td =>
          by_cases hsk : statusOf job (slug, inv) = .succeeded
          · have hrt := runTask_short (effectiveRetryLimit wfR td.retries retO)
              (validated td.inputSchema td.outputSchema td.handler)
              (slug, inv) (mkInput job) job hsk
            simp only [execProg, hlk, hrt, List.nil_append]
            exact ih ((outputOf job (slug, inv)).getD "") job
          · cases hh : validated td.inputSchema td.outputSchema td.handler
                (mkInput job) with
            | ok out =>
                have hrt := runTask_of_ok (effectiveRetryLimit wfR td.retries retO)
                  (validated td.inputSchema td.outputSchema td.handler)
                  (slug, inv) (mkInput job) job out hsk hh
                simp only [execProg, hlk, hrt]
                have hS : statusOf (jobAfterOk job (slug, inv) (mkInput job) out)
                    (slug, inv) = .succeeded :=
                  statusOf_jobAfterOk_self job (slug, inv) (mkInput job) out
                obtain ⟨ihn, ihm⟩ :=
                  ih out (jobAfterOk job (slug, inv) (mkInput job) out)
                obtain ⟨_, hfl⟩ := execProg_frozen reg wfR (next out)
                  (jobAfterOk job (slug, inv) (mkInput job) out) (slug, inv) hS
                have hfinS : statusOf
                    (execProg reg wfR (next out)
                      (jobAfterOk job (slug, inv) (mkInput job) out)).2.1
                    (slug, inv) = .succeeded := by
                  rw [statusOf_of_lookup_eq _ _ (slug, inv) hfl]
                  exact hS
                have hmem : (slug, inv) ∉
                    succKeys (execProg reg wfR (next out)
                      (jobAfterOk job (slug, inv) (mkInput job) out)).2.2 := by
                  intro hin
                  exact (ihm (slug, inv) hin).1 hS
                constructor
                · rw [succKeys_append]
                  simp only [succKeys, List.filterMap]
                  exact List.Nodup.cons (by simpa [succKeys] using hmem) ihn
                · intro k hk
                  rw [succKeys_append] at hk
                  rcases List.mem_append.mp hk with hk1 | hk2
                  · have hkk : k = (slug, inv) := by
                      simpa [succKeys] using hk1
                    subst hkk
                    exact ⟨hsk, hfinS⟩
                  · obtain ⟨hns, hfs⟩ := ihm k hk2
                    refine ⟨?_, hfs⟩
                    intro hjs
                    have hne : (slug, inv) ≠ k := by
                      intro hEq
                      exact hsk (hEq ▸ hjs)
                    exact hns (by
                      rw [statusOf_jobAfterOk_ne job (slug, inv) k
                        (mkInput job) out hne]
                      exact hjs)
            | error e =>
                have hrt := runTask_of_failure
                  (effectiveRetryLimit wfR td.retries retO)
                  (validated td.inputSchema td.outputSchema td.handler)
                  (slug, inv) (mkInput job) job e hsk hh
                simp only [execProg, hlk, hrt]
                simp [succKeys]
  | inlineT inv h mkInput retO next ih =>
      by_cases hsk : statusOf job ("inline", inv) = .succeeded
      · have hrt := runTask_short (effectiveRetryLimit wfR none retO) h
          ("inline", inv) (mkInput job) job hsk
        simp only [execProg, hrt, List.nil_append]
        exact ih ((outputOf job ("inline", inv)).getD "") job
      · cases hh : h (mkInput job) with
        | ok out =>
            have hrt := runTask_of_ok (effectiveRetryLimit wfR none retO) h
              ("inline", inv) (mkInput job) job out hsk hh
            simp only [execProg, hrt]
            have hS : statusOf (jobAfterOk job ("inline", inv) (mkInput job) out)
                ("inline", inv) = .succeeded :=
              statusOf_jobAfterOk_self job ("inline", inv) (mkInput job) out
            obtain ⟨ihn, ihm⟩ :=
              ih out (jobAfterOk job ("inline", inv) (mkInput job) out)
            obtain ⟨_, hfl⟩ := execProg_frozen reg wfR (next out)
              (jobAfterOk job ("inline", inv) (mkInput job) out) ("inline", inv) hS
            have hfinS : statusOf
                (execProg reg wfR (next out)
                  (jobAfterOk job ("inline", inv) (mkInput job) out)).2.1
                ("inline", inv) = .succeeded := by
              rw [statusOf_of_lookup_eq _ _ ("inline", inv) hfl]
              exact hS
            have hmem : (("inline" : Slug), inv) ∉
                succKeys (execProg reg wfR (next out)
                  (jobAfterOk job ("inline", inv) (mkInput job) out)).2.2 := by
              intro hin
              exact (ihm ("inline", inv) hin).1 hS
            constructor
            · rw [succKeys_append]
              simp only [succKeys, List.filterMap]
              exact List.Nodup.cons (by simpa [succKeys] using hmem) ihn
            · intro k hk
              rw [succKeys_append] at hk
              rcases List.mem_append.mp hk with hk1 | hk2
              · have hkk : k = (("inline" : Slug), inv) := by
                  simpa [succKeys] using hk1
                subst hkk
                exact ⟨hsk, hfinS⟩
              · obtain ⟨hns, hfs⟩ := ihm k hk2
                refine ⟨?_, hfs⟩
                intro hjs
                have hne : (("inline" : Slug), inv) ≠ k := by
                  intro hEq
                  exact hsk (hEq ▸ hjs)
                exact hns (by
                  rw [statusOf_jobAfterOk_ne job ("inline", inv) k
                    (mkInput job) out hne]
                  exact hjs)
        | error e =>
            have hrt := runTask_of_failure (effectiveRetryLimit wfR none retO) h
              ("inline", inv) (mkInput job) job e hsk hh
            simp only [execProg, hrt]
            simp [succKeys]

theorem effectiveRetryLimit_zero (taskRetries retryOverride : Option Nat) :
    effectiveRetryLimit (some 0) taskRetries retryOverride = some 0 := by
  simp [effectiveRetryLimit]

theorem retryPermitted_zero (n : Nat) :
    retryPermitted (some 0) (n + 1) = false := by
  simp [retryPermitted]

theorem execProg_zero_not_retryable (reg : Registry) (p : WProg) (job : Job) :
    (execProg reg (some 0) p job).1 ≠ .failure true := by
  induction p generalizing job with
  | done => simp [execProg]
  | runT slug inv mkInput retO next ih =>
      cases hlk : reg.lookupTask slug with
      | error err => simp [execProg, hlk]
      | ok td =>
          by_cases hsk : statusOf job (slug, inv) = .succeeded
          · have hrt := runTask_short (effectiveRetryLimit (some 0) td.retries retO)
              (validated td.inputSchema td.outputSchema td.handler)
              (slug, inv) (mkInput job) job hsk
            simp only [execProg, hlk, hrt]
            exact ih ((outputOf job (slug, inv)).getD "") job
          · cases hh : validated td.inputSchema td.outputSchema td.handler
                (mkInput job) with
            | ok out =>
                have hrt := runTask_of_ok
                  (effectiveRetryLimit (some 0) td.retries retO)
                  (validated td.inputSchema td.outputSchema td.handler)
                  (slug, inv) (mkInput job) job out hsk hh
                simp only [execProg, hlk, hrt]
                exact ih out (jobAfterOk job (slug, inv) (mkInput job) out)
            | error e =>
                have hrt := runTask_of_failure
                  (effectiveRetryLimit (some 0) td.retries retO)
                  (validated td.inputSchema td.outputSchema td.handler)
                  (slug, inv) (mkInput job) job e hsk hh
                simp only [execProg, hlk, hrt]
                simp [effectiveRetryLimit_zero, retryPermitted_zero]
  | inlineT inv h mkInput retO next ih =>
      by_cases hsk : statusOf job ("inline", inv) = .succeeded
      · have hrt := runTask_short (effectiveRetryLimit (some 0) none retO) h
          ("inline", inv) (mkInput job) job hsk
        simp only [execProg, hrt]
        exact ih ((outputOf job ("inline", inv)).getD "") job
      · cases hh : h (mkInput job) with
        | ok out =>
            have hrt := runTask_of_ok (effectiveRetryLimit (some 0) none retO) h
              ("inline", inv) (mkInput job) job out hsk hh
            simp only [execProg, hrt]
            exact ih out (jobAfterOk job ("inline", inv) (mkInput job) out)
        | error e =>
            have hrt := runTask_of_failure (effectiveRetryLimit (some 0) none retO)
              h ("inline", inv) (mkInput job) job e hsk hh
            simp only [execProg, hrt]
            simp [effectiveRetryLimit_zero, retryPermitted_zero]

theorem execProg_failure_state (reg : Registry) (wfR : Option Nat) (p : WProg)
    (job : Job) (b : Bool) (hf : (execProg reg wfR p job).1 = .failure b) :
    (execProg reg wfR p job).2.1.state = .failed := by
  induction p generalizing job b with
  | done => simp [execProg] at hf
  | runT slug inv mkInput retO next ih =>
      cases hlk : reg.lookupTask slug with
      | error err => simp [execProg, hlk]
      | ok td =>
          by_cases hsk : statusOf job (slug, inv) = .succeeded
          · have hrt := runTask_short (effectiveRetryLimit wfR td.retries retO)
              (validated td.inputSchema td.outputSchema td.handler)
              (slug, inv) (mkInput job) job hsk
            revert hf
            simp only [execProg, hlk, hrt]
            intro hf
            exact ih ((outputOf job (slug, inv)).getD "") job b hf
          · cases hh : validated td.inputSchema td.outputSchema td.handler
                (mkInput job) with
            | ok out =>
                have hrt := runTask_of_ok (effectiveRetryLimit wfR td.retries retO)
                  (validated td.inputSchema td.outputSchema td.handler)
                  (slug, inv) (mkInput job) job out hsk hh
                revert hf
                simp only [execProg, hlk, hrt]
                intro hf
                exact ih out (jobAfterOk job (slug, inv) (mkInput job) out) b hf
            | error e =>
                have hrt := runTask_of_failure
                  (effectiveRetryLimit wfR td.retries retO)
                  (validated td.inputSchema td.outputSchema td.handler)
                  (slug, inv) (mkInput job) job e hsk hh
                simp [execProg, hlk, hrt]
  | inlineT inv h mkInput retO next ih =>
      by_cases hsk : statusOf job ("inline", inv) = .succeeded
      · have hrt := runTask_short (effectiveRetryLimit wfR none retO) h
          ("inline", inv) (mkInput job) job hsk
        revert hf
        simp only [execProg, hrt]
        intro hf
        exact ih ((outputOf job ("inline", inv)).getD "") job b hf
      · cases hh : h (mkInput job) with
        | ok out =>
            have hrt := runTask_of_ok (effectiveRetryLimit wfR none retO) h
              ("inline", inv) (mkInput job) job out hsk hh
            revert hf
            simp only [execProg, hrt]
            intro hf
            exact ih out (jobAfterOk job ("inline", inv) (mkInput job) out) b hf
        | error e =>
            have hrt := runTask_of_failure (effectiveRetryLimit wfR none retO) h
              ("inline", inv) (mkInput job) job e hsk hh
            simp [execProg, hrt]

theorem runWorkflow_of_succeeded (reg : Registry) (wf : WorkflowDef) (job : Job)
    (h : job.state = .succeeded) :
    runWorkflow reg wf job = (.success, job, []) := by
  simp [runWorkflow, h]

theorem runWorkflow_frozen (reg : Registry) (wf : WorkflowDef) (job : Job)
    (k : Key) (hs : statusOf job k = .succeeded) :
    (∀ e ∈ (runWorkflow reg wf job).2.2, e.key ≠ k) ∧
    lookupRec (runWorkflow reg wf job).2.1.taskStatus k =
      lookupRec job.taskStatus k := by
  unfold runWorkflow
  by_cases hjs : job.state = .succeeded
  · simp [hjs]
  · simp only [if_neg hjs]
    have hs1 : statusOf { job with state := JobState.running } k = .succeeded := hs
    obtain ⟨he, hl⟩ := execProg_frozen reg wf.retries (wf.handler job.input)
      { job with state := JobState.running } k hs1
    rcases hex : execProg reg wf.retries (wf.handler job.input)
        { job with state := JobState.running } with ⟨sig, j, tr⟩
    rw [hex] at he hl
    cases sig with
    | success =>
        exact ⟨he, hl⟩
    | failure r =>
        exact ⟨he, hl⟩

theorem runWorkflow_succKeys (reg : Registry) (wf : WorkflowDef) (job : Job) :
    (succKeys (runWorkflow reg wf job).2.2).Nodup ∧
    ∀ k ∈ succKeys (runWorkflow reg wf job).2.2,
      statusOf job k ≠ .succeeded ∧
      statusOf (runWorkflow reg wf job).2.1 k = .succeeded := by
  unfold runWorkflow
  by_cases hjs : job.state = .succeeded
  · simp [hjs, succKeys]
  · simp only [if_neg hjs]
    obtain ⟨hn, hm⟩ := execProg_succKeys reg wf.retries (wf.handler job.input)
      { job with state := JobState.running }
    rcases hex : execProg reg wf.retries (wf.handler job.input)
        { job with state := JobState.running } with ⟨sig, j, tr⟩
    rw [hex] at hn hm
    cases sig with
    | success =>
        refine ⟨hn, ?_⟩
        intro k hk
        obtain ⟨h1, h2⟩ := hm k hk
        exact ⟨h1, h2⟩
    | failure r =>
        refine ⟨hn, ?_⟩
        intro k hk
        obtain ⟨h1, h2⟩ := hm k hk
        exact ⟨h1, h2⟩

theorem runAttempts_frozen (reg : Registry) (wf : WorkflowDef) (n : Nat)
    (job : Job) (k : Key) (hs : statusOf job k = .succeeded) :
    (∀ e ∈ (runAttempts reg wf job n).2, e.key ≠ k) ∧
    lookupRec (runAttempts reg wf job n).1.taskStatus k =
      lookupRec job.taskStatus k := by
  induction n generalizing job with
  | zero => simp [runAttempts]
  | succ n ih =>
      simp only [runAttempts]
      obtain ⟨he1, hl1⟩ := runWorkflow_frozen reg wf job k hs
      have hs1 : statusOf (runWorkflow reg wf job).2.1 k = .succeeded := by
        rw [statusOf_of_lookup_eq _ _ k hl1]
        exact hs
      obtain ⟨he2, hl2⟩ := ih (runWorkflow reg wf job).2.1 hs1
      constructor
      · intro e he
        rcases List.mem_append.mp he with h1 | h2
        · exact he1 e h1
        · exact he2 e h2
      · rw [hl2, hl1]

theorem runAttempts_succKeys (reg : Registry) (wf : WorkflowDef) (n : Nat)
    (job : Job) :
    (succKeys (runAttempts reg wf job n).2).Nodup ∧
    ∀ k ∈ succKeys (runAttempts reg wf job n).2,
      statusOf job k ≠ .succeeded := by
  induction n generalizing job with
  | zero => simp [runAttempts, succKeys]
  | succ n ih =>
      simp only [runAttempts]
      obtain ⟨hn1, hm1⟩ := runWorkflow_succKeys reg wf job
      obtain ⟨hn2, hm2⟩ := ih (runWorkflow reg wf job).2.1
      constructor
      · rw [succKeys_append]
        refine List.Nodup.append hn1 hn2 ?_
        intro k hk1 hk2
        exact hm2 k hk2 (hm1 k hk1).2
      · intro k hk
        rw [succKeys_append] at hk
        rcases List.mem_append.mp hk with h1 | h2
        · exact (hm1 k h1).1
        · intro hjs
          obtain ⟨_, hl1⟩ := runWorkflow_frozen reg wf job k hjs
          exact hm2 k h2 (by
            rw [statusOf_of_lookup_eq _ _ k hl1]
            exact hjs)

theorem runAttempts_add (reg : Registry) (wf : WorkflowDef) (job : Job)
    (n m : Nat) :
    runAttempts reg wf job (n + m) =
      ((runAttempts reg wf (runAttempts reg wf job n).1 m).1,
       (runAttempts reg wf job n).2 ++
         (runAttempts reg wf (runAttempts reg wf job n).1 m).2) := by
  induction n generalizing job with
  | zero => simp [runAttempts]
  | succ n ih =>
      have hadd : n + 1 + m = (n + m) + 1 := by omega
      rw [hadd]
      simp only [runAttempts]
      rw [ih (runWorkflow reg wf job).2.1]
      simp [List.append_assoc]

theorem noInvokeOf_of_keys (k : Key) (tr : List Event)
    (h : ∀ e ∈ tr, e.key ≠ k) : noInvokeOf k tr = true := by
  unfold noInvokeOf
  rw [List.all_eq_true]
  intro e he
  have := h e he
  simp [this]

theorem findTask_append_self (l : List TaskDef) (d : TaskDef)
    (hnot : d.slug ∉ l.map (·.slug)) :
    findTask (l ++ [d]) d.slug = some d := by
  induction l with
  | nil => simp [findTask]
  | cons d0 rest ih =>
      simp only [List.map_cons, List.mem_cons] at hnot
      push_neg at hnot
      obtain ⟨h1, h2⟩ := hnot
      have hne : d0.slug ≠ d.slug := fun hEq => h1 hEq.symm
      simp [findTask, hne, ih h2]

theorem registerTask_ok_shape (r r' : Registry) (d : TaskDef)
    (h : r.registerTask d = .ok r') :
    r'.tasks = r.tasks ++ [d] ∧ d.slug ∉ r.tasks.map (·.slug) := by
  unfold Registry.registerTask at h
  by_cases hin : d.slug ∈ r.allSlugs
  · simp [hin] at h
  · simp only [if_neg hin] at h
    have hr : ({ r with tasks := r.tasks ++ [d] } : Registry) = r' := by
      simpa using h
    constructor
    · rw [← hr]
    · intro hmem
      exact hin (by
        unfold Registry.allSlugs
        exact List.mem_append_left _ hmem)

theorem attemptsOf_jobAfterFail_self (job : Job) (k : Key) (input : Val)
    (e : String) :
    attemptsOf (jobAfterFail job k input e) k = attemptsOf job k + 1 := by
  simp [jobAfterFail, attemptsOf, lookupRec_upsertRec_self, failRecord]

theorem statusOf_jobAfterFail_self (job : Job) (k : Key) (input : Val)
    (e : String) :
    statusOf (jobAfterFail job k input e) k = .failed := by
  simp [jobAfterFail, statusOf, lookupRec_upsertRec_self, failRecord]

theorem errorOf_jobAfterFail_self (job : Job) (k : Key) (input : Val)
    (e : String) :
    errorOf (jobAfterFail job k input e) k = some e := by
  simp [jobAfterFail, errorOf, lookupRec_upsertRec_self, failRecord]

theorem outputOf_jobAfterOk_self (job : Job) (k : Key) (input out : Val) :
    outputOf (jobAfterOk job k input out) k = some out := by
  simp [jobAfterOk, outputOf, lookupRec_upsertRec_self, succRecord]

theorem findTask_eq_none (l : List TaskDef) (s : Slug)
    (h : s ∉ l.map (·.slug)) : findTask l s = none := by
  induction l with
  | nil => simp [findTask]
  | cons d rest ih =>
      simp only [List.map_cons, List.mem_cons] at h
      push_neg at h
      obtain ⟨h1, h2⟩ := h
      have hne : d.slug ≠ s := fun hEq => h1 hEq.symm
      simp [findTask, hne, ih h2]

theorem runWorkflow_failure_state (reg : Registry) (wf : WorkflowDef)
    (job : Job) (b : Bool) (hf : (runWorkflow reg wf job).1 = .failure b) :
    (runWorkflow reg wf job).2.1.state = .failed := by
  revert hf
  unfold runWorkflow
  by_cases hjs : job.state = .succeeded
  · simp [hjs]
  · simp only [if_neg hjs]
    rcases hex : execProg reg wf.retries (wf.handler job.input)
        { job with state := JobState.running } with ⟨sig, j, tr⟩
    cases sig with
    | success => simp
    | failure r =>
        intro hf
        have hstate := execProg_failure_state reg wf.retries
          (wf.handler job.input) { job with state := JobState.running } r
          (by rw [hex])
        rw [hex] at hstate
        exact hstate

theorem runWorkflow_not_success_state (reg : Registry) (wf : WorkflowDef)
    (job : Job) (hns : (runWorkflow reg wf job).1 ≠ .success) :
    (runWorkflow reg wf job).2.1.state = .failed := by
  cases hsig : (runWorkflow reg wf job).1 with
  | success => exact absurd hsig hns
  | failure b => exact runWorkflow_failure_state reg wf job b hsig

theorem runWorkflow_zero_not_retryable (reg : Registry) (wf : WorkflowDef)
    (job : Job) (hwf : wf.retries = some 0) :
    (runWorkflow reg wf job).1 ≠ .failure true := by
  unfold runWorkflow
  by_cases hjs : job.state = .succeeded
  · simp [hjs]
  · simp only [if_neg hjs]
    rw [hwf]
    have hz := execProg_zero_not_retryable reg (wf.handler job.input)
      { job with state := JobState.running }
    rcases hex : execProg reg (some 0) (wf.handler job.input)
        { job with state := JobState.running } with ⟨sig, j, tr⟩
    rw [hex] at hz
    cases sig with
    | success => exact hz
    | failure r => exact hz

/-- Claim C1: once a task invocation key's Task Execution Record is
`succeeded`, the Task Runner's `run` returns the stored output with the job
unchanged and no handler invocation, and re-running the containing workflow
handler any number of times never invokes that key's task handler again. -/
theorem succeeded_invocation_memoized (reg : Registry) (wf : WorkflowDef)
    (job : Job) (k : Key) (r : TaskRecord) (out : Val) (limit : Option Nat)
    (h : Handler) (input : Val) (n : Nat)
    (hr : lookupRec job.taskStatus k = some r)
    (hst : r.status = .succeeded)
    (hout : r.output = some out) :
    runTask limit h k input job = (.ok out, job, []) ∧
    noInvokeOf k (runAttempts reg wf job n).2 = true := by
  have hs : statusOf job k = .succeeded := by
    simp [statusOf, hr, hst]
  constructor
  · rw [runTask_of_succeeded limit h k input job r hr hst, hout]
    rfl
  · exact noInvokeOf_of_keys k _ ((runAttempts_frozen reg wf n job k hs).1)

/-- Witness for C1 at a concrete job whose `("createPost", "1")` invocation
already succeeded, re-run three times. -/
theorem succeeded_invocation_memoized_wit :
    lookupRec cJob.taskStatus ("createPost", "1") = some cRec ∧
    cRec.status = .succeeded ∧
    cRec.output = some "post-7" ∧
    runTask none boomHandler ("createPost", "1") "X" cJob =
      (.ok "post-7", cJob, []) ∧
    noInvokeOf ("createPost", "1") (runAttempts cReg cWf cJob 3).2 = true := by
  have h := succeeded_invocation_memoized cReg cWf cJob ("createPost", "1")
    cRec "post-7" none boomHandler "X" 3 (by decide) (by decide) (by decide)
  exact ⟨by decide, by decide, by decide, h.1, h.2⟩

/-- Claim C2: with workflow-level retries = 0, a failing task invocation is
terminal after exactly one more attempt regardless of the task's own retries
or the invocation's override (the resolved limit is 0), and the Workflow
Executor marks the job `failed` and never signals a retryable failure. -/
theorem workflow_zero_retries_overrides (reg : Registry) (wf : WorkflowDef)
    (job : Job) (taskRetries retryOverride : Option Nat) (h : Handler)
    (k : Key) (input : Val) (e : String)
    (hwf : wf.retries = some 0)
    (hs : statusOf job k ≠ .succeeded)
    (hh : h input = .error e) :
    effectiveRetryLimit wf.retries taskRetries retryOverride = some 0 ∧
    (runTask (effectiveRetryLimit wf.retries taskRetries retryOverride) h k
      input job).1 = .failed false ∧
    attemptsOf (runTask (effectiveRetryLimit wf.retries taskRetries
      retryOverride) h k input job).2.1 k = attemptsOf job k + 1 ∧
    (runWorkflow reg wf job).1 ≠ Signal.failure true ∧
    ((runWorkflow reg wf job).1 ≠ .success →
      (runWorkflow reg wf job).2.1.state = .failed) := by
  have hl0 : effectiveRetryLimit wf.retries taskRetries retryOverride =
      some 0 := by
    rw [hwf]
    exact effectiveRetryLimit_zero taskRetries retryOverride
  have hrt := runTask_of_failure
    (effectiveRetryLimit wf.retries taskRetries retryOverride)
    h k input job e hs hh
  refine ⟨hl0, ?_, ?_, runWorkflow_zero_not_retryable reg wf job hwf,
    fun hns => runWorkflow_not_success_state reg wf job hns⟩
  · rw [hrt, hl0, retryPermitted_zero]
  · rw [hrt]
    exact attemptsOf_jobAfterFail_self job k input e

/-- Witness for C2: the sample workflow with retries = 0 on a fresh job,
where `updatePost` throws on its first attempt. -/
theorem workflow_zero_retries_overrides_wit :
    cWfZero.retries = some 0 ∧
    statusOf cFreshJob ("updatePost", "2") = .notStarted ∧
    boomHandler "X" = .error "boom" ∧
    effectiveRetryLimit cWfZero.retries (some 5) (some 3) = some 0 ∧
    (runTask (effectiveRetryLimit cWfZero.retries (some 5) (some 3))
      boomHandler ("updatePost", "2") "X" cFreshJob).1 = .failed false ∧
    attemptsOf (runTask (effectiveRetryLimit cWfZero.retries (some 5) (some 3))
      boomHandler ("updatePost", "2") "X" cFreshJob).2.1 ("updatePost", "2") =
      attemptsOf cFreshJob ("updatePost", "2") + 1 ∧
    (runWorkflow cReg cWfZero cFreshJob).2.1.state = .failed := by
  have h := workflow_zero_retries_overrides cReg cWfZero cFreshJob (some 5)
    (some 3) boomHandler ("updatePost", "2") "X" "boom" (by decide) (by decide)
    rfl
  exact ⟨by decide, by decide, rfl, h.1, h.2.1, h.2.2.1,
    h.2.2.2.2 (by decide)⟩

/-- Counterexample to C3 as stated: with workflow retries = 0, task
retries = 5 and override = 3, the claimed precedence resolves limit 3 and
predicts the first failure (attempt count 1 ≤ 3) is retryable, but the
engine resolves limit 0 and signals the failure terminal. -/
theorem retry_precedence_cex :
    claimedRetryLimit (some 0) (some 5) (some 3) = some 3 ∧
    retryPermitted (claimedRetryLimit (some 0) (some 5) (some 3))
      (attemptsOf cFreshJob ("updatePost", "2") + 1) = true ∧
    effectiveRetryLimit (some 0) (some 5) (some 3) = some 0 ∧
    (runTask (effectiveRetryLimit (some 0) (some 5) (some 3)) boomHandler
      ("updatePost", "2") "X" cFreshJob).1 = .failed false ∧
    (runTask (effectiveRetryLimit (some 0) (some 5) (some 3)) boomHandler
      ("updatePost", "2") "X" cFreshJob).1 ≠
      .failed (retryPermitted (claimedRetryLimit (some 0) (some 5) (some 3))
        (attemptsOf cFreshJob ("updatePost", "2") + 1)) := by
  decide

/-- Claim C3 as amended: when the workflow-level retries is not 0, the
effective retry limit is the invocation's override if specified, else the
task definition's retries, else the workflow's retries, else no
engine-imposed bound, and a failure is signalled retryable exactly when the
incremented attempt count has not exceeded that limit (with no limit at all,
every failure is retryable); a workflow-level retries of 0 instead overrides
the cascade and forces limit 0. -/
theorem retry_precedence_amended (wfR taskR retO : Option Nat) (h : Handler)
    (k : Key) (input : Val) (e : String) (job : Job)
    (hwf : wfR ≠ some 0)
    (hs : statusOf job k ≠ .succeeded)
    (hh : h input = .error e) :
    effectiveRetryLimit wfR taskR retO = claimedRetryLimit wfR taskR retO ∧
    (runTask (effectiveRetryLimit wfR taskR retO) h k input job).1 =
      .failed (retryPermitted (claimedRetryLimit wfR taskR retO)
        (attemptsOf job k + 1)) ∧
    (runTask none h k input job).1 = .failed true := by
  have h1 : effectiveRetryLimit wfR taskR retO =
      claimedRetryLimit wfR taskR retO := by
    unfold effectiveRetryLimit claimedRetryLimit
    rw [if_neg hwf]
  refine ⟨h1, ?_, ?_⟩
  · rw [runTask_of_failure (effectiveRetryLimit wfR taskR retO) h k input job
      e hs hh, h1]
  · rw [runTask_of_failure none h k input job e hs hh]
    rfl

/-- Witness for the amended C3: workflow retries = 2, no task retries, no
override, first failure of a fresh invocation. -/
theorem retry_precedence_amended_wit :
    effectiveRetryLimit (some 2) none none =
      claimedRetryLimit (some 2) none none ∧
    (runTask (effectiveRetryLimit (some 2) none none) boomHandler
      ("updatePost", "2") "X" cFreshJob).1 =
      .failed (retryPermitted (claimedRetryLimit (some 2) none none)
        (attemptsOf cFreshJob ("updatePost", "2") + 1)) ∧
    (runTask none boomHandler ("updatePost", "2") "X" cFreshJob).1 =
      .failed true := by
  exact retry_precedence_amended (some 2) none none boomHandler
    ("updatePost", "2") "X" "boom" cFreshJob (by decide) (by decide) rfl

/-- Claim C4: invoking the Workflow Executor on a job whose state is
`succeeded` returns immediately with the job record unchanged in every field
and an empty event trace — no workflow handler or task handler runs, and the
job is not mutated. -/
theorem succeeded_job_never_mutated (reg : Registry) (wf : WorkflowDef)
    (job : Job) (h : job.state = .succeeded) :
    runWorkflow reg wf job = (.success, job, []) := by
  simp [runWorkflow, h]

/-- Witness for C4 on a concrete succeeded job. -/
theorem succeeded_job_never_mutated_wit :
    cDoneJob.state = .succeeded ∧
    runWorkflow cReg cWf cDoneJob = (.success, cDoneJob, []) :=
  ⟨rfl, succeeded_job_never_mutated cReg cWf cDoneJob rfl⟩

/-- Claim C5: an exception thrown by a task handler is caught by the Task
Runner and recorded as a failure in the key's Task Execution Record (status
`failed`, error detail persisted); the Runner returns a `TaskOutcome` failure
value — its result type has no exception channel, so no raw handler
exception passes the Runner boundary. -/
theorem handler_exception_contained (limit : Option Nat) (h : Handler)
    (k : Key) (input : Val) (e : String) (job : Job)
    (hs : statusOf job k ≠ .succeeded)
    (hh : h input = .error e) :
    (runTask limit h k input job).1 =
      .failed (retryPermitted limit (attemptsOf job k + 1)) ∧
    statusOf (runTask limit h k input job).2.1 k = .failed ∧
    errorOf (runTask limit h k input job).2.1 k = some e := by
  rw [runTask_of_failure limit h k input job e hs hh]
  exact ⟨rfl, statusOf_jobAfterFail_self job k input e,
    errorOf_jobAfterFail_self job k input e⟩

/-- Witness for C5: a throwing handler on a fresh invocation. -/
theorem handler_exception_contained_wit :
    boomHandler "X" = .error "boom" ∧
    (runTask (some 2) boomHandler ("updatePost", "2") "X" cFreshJob).1 =
      .failed (retryPermitted (some 2)
        (attemptsOf cFreshJob ("updatePost", "2") + 1)) ∧
    statusOf (runTask (some 2) boomHandler ("updatePost", "2") "X"
      cFreshJob).2.1 ("updatePost", "2") = .failed ∧
    errorOf (runTask (some 2) boomHandler ("updatePost", "2") "X"
      cFreshJob).2.1 ("updatePost", "2") = some "boom" := by
  have h := handler_exception_contained (some 2) boomHandler
    ("updatePost", "2") "X" "boom" cFreshJob (by decide) rfl
  exact ⟨rfl, h.1, h.2.1, h.2.2⟩

/-- Claim C6: inline tasks are behaviourally equivalent to predefined tasks
for memoization and replay: a succeeded `("inline", id)` record
short-circuits to its stored output with the job unchanged, independently of
the handler, limit or input supplied (exactly like a succeeded predefined
record under the validating wrapper); a fresh successful inline run stores
its output under its invocation ID; and when the schemas accept every value
the validating wrapper is behaviourally inert, so the only differences are
the registry lookup and schema validation. -/
theorem inline_equiv_predefined
    (job job2 job4 : Job) (inv inv2 : InvocationId)
    (out out' out3 : Val) (lim1 lim2 lim3 lim4 : Option Nat)
    (h1 h2 h3 h4 : Handler) (in1 in2 in3 in4 : Val)
    (k' k4 : Key) (r' : TaskRecord) (sIn sOut : Val → Bool)
    (hsucc : statusOf job ("inline", inv) = .succeeded)
    (hout : outputOf job ("inline", inv) = some out)
    (hr' : lookupRec job.taskStatus k' = some r')
    (hst' : r'.status = .succeeded)
    (hout' : r'.output = some out')
    (hs2 : statusOf job2 ("inline", inv2) ≠ .succeeded)
    (hh3 : h3 in3 = .ok out3)
    (hIn : ∀ v, sIn v = true)
    (hOut : ∀ v, sOut v = true) :
    runTask lim1 h1 ("inline", inv) in1 job = (.ok out, job, []) ∧
    runTask lim1 h1 ("inline", inv) in1 job =
      runTask lim2 h2 ("inline", inv) in2 job ∧
    runTask lim2 (validated sIn sOut h2) k' in2 job = (.ok out', job, []) ∧
    outputOf (runTask lim3 h3 ("inline", inv2) in3 job2).2.1 ("inline", inv2) =
      some out3 ∧
    statusOf (runTask lim3 h3 ("inline", inv2) in3 job2).2.1 ("inline", inv2) =
      .succeeded ∧
    runTask lim4 (validated sIn sOut h4) k4 in4 job4 =
      runTask lim4 h4 k4 in4 job4 := by
  have hshort := runTask_short lim1 h1 ("inline", inv) in1 job hsucc
  have hshort2 := runTask_short lim2 h2 ("inline", inv) in2 job hsucc
  have hok := runTask_of_ok lim3 h3 ("inline", inv2) in3 job2 out3 hs2 hh3
  refine ⟨?_, ?_, ?_, ?_, ?_, ?_⟩
  · rw [hshort, hout]
    rfl
  · rw [hshort, hshort2]
  · rw [runTask_of_succeeded lim2 (validated sIn sOut h2) k' in2 job r' hr'
      hst', hout']
    rfl
  · rw [hok]
    exact outputOf_jobAfterOk_self job2 ("inline", inv2) in3 out3
  · rw [hok]
    exact statusOf_jobAfterOk_self job2 ("inline", inv2) in3 out3
  · have hv : validated sIn sOut h4 in4 = h4 in4 := by
      simp only [validated, hIn in4, if_true]
      cases hc : h4 in4 with
      | ok o => simp [hOut o]
      | error er => rfl
    exact runTask_handler_congr lim4 (validated sIn sOut h4) h4 k4 in4 job4 hv

/-- Witness for C6 on a job holding a succeeded inline record and a
succeeded predefined record, plus a fresh inline run that succeeds. -/
theorem inline_equiv_predefined_wit :
    statusOf cJob2 ("inline", "2") = .succeeded ∧
    outputOf cJob2 ("inline", "2") = some "ipost" ∧
    runTask none boomHandler ("inline", "2") "A" cJob2 =
      (.ok "ipost", cJob2, []) ∧
    runTask none boomHandler ("inline", "2") "A" cJob2 =
      runTask (some 4) okHandler ("inline", "2") "B" cJob2 ∧
    runTask (some 4) (validated (fun _ => true) (fun _ => true) okHandler)
      ("createPost", "1") "B" cJob2 = (.ok "post-7", cJob2, []) ∧
    outputOf (runTask (some 1) okHandler ("inline", "9") "C"
      cFreshJob).2.1 ("inline", "9") = some "post-7" ∧
    statusOf (runTask (some 1) okHandler ("inline", "9") "C"
      cFreshJob).2.1 ("inline", "9") = .succeeded ∧
    runTask (some 2) (validated (fun _ => true) (fun _ => true) boomHandler)
      ("updatePost", "7") "D" cFreshJob =
      runTask (some 2) boomHandler ("updatePost", "7") "D" cFreshJob := by
  have h := inline_equiv_predefined cJob2 cFreshJob cFreshJob "2" "9"
    "ipost" "post-7" "post-7" none (some 4) (some 1) (some 2)
    boomHandler okHandler okHandler boomHandler "A" "B" "C" "D"
    ("createPost", "1") ("updatePost", "7") cRec
    (fun _ => true) (fun _ => true)
    (by decide) (by decide) (by decide) (by decide) (by decide) (by decide)
    rfl (fun _ => rfl) (fun _ => rfl)
  exact ⟨by decide, by decide, h.1, h.2.1, h.2.2.1, h.2.2.2.1, h.2.2.2.2.1,
    h.2.2.2.2.2⟩

/-- Claim C7: across any number of attempts of the same workflow on one job,
each invocation key's success transition happens at most once (the sequence
of keys reaching `succeeded`, in order, has no duplicates), and the success
order produced by the first n attempts is left intact — m further retries
only append to it, so no retry can make two invocation IDs reach `succeeded`
in a different relative order. -/
theorem success_order_stable (reg : Registry) (wf : WorkflowDef) (job : Job)
    (n m : Nat) :
    (succKeys (runAttempts reg wf job n).2).Nodup ∧
    succKeys (runAttempts reg wf job (n + m)).2 =
      succKeys (runAttempts reg wf job n).2 ++
        succKeys (runAttempts reg wf (runAttempts reg wf job n).1 m).2 := by
  refine ⟨(runAttempts_succKeys reg wf n job).1, ?_⟩
  rw [runAttempts_add reg wf job n m]
  exact succKeys_append _ _

/-- Claim C8: registering a task or workflow definition whose slug collides
with any already-registered task or workflow slug fails with `DuplicateSlug`
(at registration time, with no job involved); looking up a slug absent from
the registry fails with `UnknownTask`; looking up a registered slug returns
its definition. -/
theorem registry_slug_contract (r1 r2 r3 r4 r4' : Registry) (d1 d4 : TaskDef)
    (d2 : WorkflowDef) (s3 : Slug)
    (h1 : d1.slug ∈ r1.allSlugs)
    (h2 : d2.slug ∈ r2.allSlugs)
    (h3 : s3 ∉ r3.tasks.map (·.slug))
    (h4 : r4.registerTask d4 = .ok r4') :
    r1.registerTask d1 = .error .duplicateSlug ∧
    r2.registerWorkflow d2 = .error .duplicateSlug ∧
    r3.lookupTask s3 = .error .unknownTask ∧
    r4'.lookupTask d4.slug = .ok d4 := by
  refine ⟨?_, ?_, ?_, ?_⟩
  · simp [Registry.registerTask, h1]
  · simp [Registry.registerWorkflow, h2]
  · have hfn := findTask_eq_none r3.tasks s3 h3
    simp [Registry.lookupTask, hfn]
  · obtain ⟨hts, hnot⟩ := registerTask_ok_shape r4 r4' d4 h4
    have hfs : findTask r4'.tasks d4.slug = some d4 := by
      rw [hts]
      exact findTask_append_self r4.tasks d4 hnot
    simp [Registry.lookupTask, hfs]

/-- Witness for C8: duplicate task and workflow registrations against the
sample registry, lookup of an unknown slug, and lookup after a successful
registration. -/
theorem registry_slug_contract_wit :
    cTask.slug ∈ cReg.allSlugs ∧
    cWfDup.slug ∈ cReg.allSlugs ∧
    cEmptyReg.registerTask cTask = .ok cRegOne ∧
    (cReg.registerTask cTask = .error .duplicateSlug ∧
     cReg.registerWorkflow cWfDup = .error .duplicateSlug ∧
     cReg.lookupTask "deletePost" = .error .unknownTask ∧
     cRegOne.lookupTask cTask.slug = .ok cTask) := by
  have h := registry_slug_contract cReg cReg cReg cEmptyReg cRegOne cTask
    cTask cWfDup "deletePost" (by decide) (by decide) (by decide) rfl
  exact ⟨by decide, by decide, rfl, h⟩

end PayloadJobs

namespace PayloadDb

/-- Counterexample to C9 as stated: on an adapter state with no pool and no
drizzle teardown, `destroy` performs no effect at all, so it does not close a
pool via `pool.end` and then delegate to the drizzle teardown. -/
theorem destroy_unconditional_cex :
    destroy { pool := none, drizzleAdapterDestroy := none } ≠
      Except.ok [DestroyEffect.poolEnd, DestroyEffect.drizzleDestroy] ∧
    destroy { pool := none, drizzleAdapterDestroy := none } =
      Except.ok ([] : List DestroyEffect) := by
  constructor
  · intro hc
    have : ([] : List DestroyEffect) =
        [DestroyEffect.poolEnd, DestroyEffect.drizzleDestroy] := by
      injection hc
    cases this
  · rfl

/-- Claim C9 as amended: `destroy` completes without error for every adapter
state; its effect trace is a subsequence of `[poolEnd, drizzleDestroy]` — the
pool is closed first, the drizzle teardown runs second, and no other effect
occurs — with `poolEnd` present exactly when a pool is present and
`drizzleDestroy` present exactly when the drizzle teardown is defined. -/
theorem destroy_pool_then_drizzle (a : PostgresAdapter) :
    destroy a = Except.ok (destroyTrace a) ∧
    (destroyTrace a).Sublist
      [DestroyEffect.poolEnd, DestroyEffect.drizzleDestroy] ∧
    decide (DestroyEffect.poolEnd ∈ destroyTrace a) = a.pool.isSome ∧
    decide (DestroyEffect.drizzleDestroy ∈ destroyTrace a) =
      a.drizzleAdapterDestroy.isSome := by
  obtain ⟨p, d⟩ := a
  cases p with
  | none =>
      cases d with
      | none => exact ⟨rfl, by decide, by decide, by decide⟩
      | some u =>
          cases u
          exact ⟨rfl, by decide, by decide, by decide⟩
  | some u =>
      cases u
      cases d with
      | none => exact ⟨rfl, by decide, by decide, by decide⟩
      | some u2 =>
          cases u2
          exact ⟨rfl, by decide, by decide, by decide⟩

/-- Claim C10: `destroy` is total over its optional collaborators — it
completes without raising an error of its own for every adapter, and on each
of the four presence combinations the trace shows `pool.end` skipped when the
pool is absent and the drizzle teardown skipped when it is undefined. -/
theorem destroy_total_guarded :
    (∀ a : PostgresAdapter, destroyOk a = true) ∧
    destroy { pool := none, drizzleAdapterDestroy := none } =
      Except.ok ([] : List DestroyEffect) ∧
    destroy { pool := none, drizzleAdapterDestroy := some () } =
      Except.ok [DestroyEffect.drizzleDestroy] ∧
    destroy { pool := some (), drizzleAdapterDestroy := none } =
      Except.ok [DestroyEffect.poolEnd] ∧
    destroy { pool := some (), drizzleAdapterDestroy := some () } =
      Except.ok [DestroyEffect.poolEnd, DestroyEffect.drizzleDestroy] := by
  refine ⟨?_, rfl, rfl, rfl, rfl⟩
  intro a
  obtain ⟨p, d⟩ := a
  cases p <;> cases d <;> rfl

end PayloadDb
